import Mathlib

/-!
Verification of the tablib core (`src/tablib/core.py`): a shallow embedding of
the `Row`/`Dataset` data model and of the row/column mutation, validation,
packaging and transformation operations, together with theorems settling the
specification claims.

Python is uni-typed, so cell values and header values share one type `α`
(with decidable equality where the source compares values).  Fallible
operations return `Except PyErr`; a raise in the source is an `.error` that
short-circuits the rest of the translated statement sequence, so an operation
that raises before mutating returns no mutated dataset.  Machine integers do
not occur in the core (all sizes are Python `int`s, i.e. unbounded), list
indices handed to `list.insert` are modelled as `Int` with Python's clamping
semantics.
-/

set_option linter.unusedVariables false

/-- Concrete Python-like value type used to instantiate the generic model in
counterexamples and witnesses: an int or a string. -/
inductive PV : Type where
  | i : Int → PV
  | s : String → PV
deriving DecidableEq, Repr, Inhabited

/-- The exception kinds the translated core can raise.  `invalidDimensions`,
`headersNeeded`, `invalidDatasetIndex` come from `tablib.exceptions`;
`keyError`, `typeError`, `indexError`, `attributeError` are the Python
built-in exceptions the source lets escape. -/
inductive PyErr : Type where
  | invalidDimensions
  | headersNeeded
  | invalidDatasetIndex
  | keyError
  | typeError
  | indexError
  | attributeError
deriving DecidableEq, Repr

/-- `Row` (`core.py` lines 32-118): an ordered list of cell values plus a list
of string tags (`self._row`, `self.tags`). -/
structure Row (α : Type) : Type where
  cells : List α
  tags : List String
deriving DecidableEq, Repr

instance : Inhabited (Row α) := ⟨⟨[], []⟩⟩

/-- Argument accepted by `Row.has_tag`: Python `None`, a single string, or a
collection of strings. -/
inductive TagArg : Type where
  | pynone
  | one (t : String)
  | many (ts : List String)
deriving DecidableEq, Repr

/-- `Row.has_tag` (lines 110-118): `None` is never matched; a string is tested
by membership; a collection matches when its set intersection with the row's
tags is non-empty. -/
def Row.has_tag (r : Row α) (tag : TagArg) : Bool :=
  match tag with
  | .pynone => false
  | .one t => r.tags.contains t
  | .many ts => ts.any (fun t => r.tags.contains t)

/-- `Dataset` state (lines 168-180): the row list `self._data`, the optional
header list `self.__headers` (`None` or a list; the setter never stores an
empty list), and the `(column, callback)` formatter list `self._formatters`.
`self._separators` and `self.title` play no part in any claim (separators are
presentational only) and are omitted.  A formatter column selector is
`none` for the whole-row form (`col is None`) or a column index; selectors
registered through `add_formatter` are non-negative. -/
structure Dataset (α : Type) : Type where
  rows : List (Row α)
  headers : Option (List α)
  fmts : List (Option Nat × (α → α))

/-- Python truthiness of the headers attribute (`if self.headers:`): `None`
and the empty list are falsy. -/
def truthyHeaders : Option (List α) → Bool
  | some (_ :: _) => true
  | _ => false

/-- `Dataset.height` (lines 470-475): `len(self._data)`. -/
def Dataset.height (d : Dataset α) : Nat :=
  d.rows.length

/-- `Dataset.width` (lines 477-491): `len(self._data[0])` if a row exists,
else `len(self.headers)` (the `TypeError` for `headers is None` is caught and
yields 0). -/
def Dataset.width (d : Dataset α) : Nat :=
  match d.rows with
  | r :: _ => r.cells.length
  | [] =>
      match d.headers with
      | some hs => hs.length
      | none => 0

/-- Python `list.insert(i, x)`: a negative index counts from the end and is
clamped at 0; an index past the end appends. -/
def pyListInsert (l : List β) (i : Int) (x : β) : List β :=
  let k : Nat := if i < 0 then (max 0 ((l.length : Int) + i)).toNat
                 else min i.toNat l.length
  l.take k ++ x :: l.drop k

/-- The `is_valid` computation of `Dataset._validate` (lines 296-327).  The
`row`/`col` guards are Python truthiness tests, so an *empty* row or column
skips its dimension check and falls through to the all-rows check. -/
def validShape (d : Dataset α) (row col : Option (List α)) : Bool :=
  match row with
  | some (r0 :: rtl) =>
      if d.width ≠ 0 then (r0 :: rtl).length == d.width else true
  | _ =>
      match col with
      | some (c0 :: ctl) =>
          if (c0 :: ctl).length < 1 then true
          else if d.height ≠ 0 then (c0 :: ctl).length == d.height else true
      | _ => d.rows.all (fun r => r.cells.length == d.width)

/-- Raise-or-report part of `Dataset._validate` (lines 320-327): with
`safety=False` an invalid shape raises `InvalidDimensions`, with
`safety=True` it is reported as `False`. -/
def Dataset._validate (d : Dataset α) (row col : Option (List α))
    (safety : Bool) : Except PyErr Bool :=
  if validShape d row col then .ok true
  else if safety then .ok false
  else .error .invalidDimensions

/-- `Dataset.insert` (lines 535-545): validate the row against the current
width, then insert a fresh `Row` at the given index. -/
def Dataset.insert (d : Dataset α) (index : Int) (row : List α)
    (tags : List String) : Except PyErr (Dataset α) := do
  _ ← d._validate (some row) none false
  .ok { d with rows := pyListInsert d.rows index ⟨row, tags⟩ }

/-- `Dataset.rpush` (lines 547-552): insert at `self.height`. -/
def Dataset.rpush (d : Dataset α) (row : List α) (tags : List String) :
    Except PyErr (Dataset α) :=
  d.insert (d.height : Int) row tags

/-- `Dataset.lpush` (lines 554-559): insert at 0. -/
def Dataset.lpush (d : Dataset α) (row : List α) (tags : List String) :
    Except PyErr (Dataset α) :=
  d.insert 0 row tags

/-- `Dataset.append` (lines 561-566): delegates to `rpush`. -/
def Dataset.append (d : Dataset α) (row : List α) (tags : List String) :
    Except PyErr (Dataset α) :=
  d.rpush row tags

/-- String-key branch of `Dataset.__getitem__` (lines 186-194): when headers
is `None`, the membership test `key in self.headers` raises `TypeError`; when
the key is absent from the headers, `KeyError` is raised; otherwise the column
at the key's first header position is projected (`row[pos]` raises
`IndexError` on a too-short row). -/
def Dataset.getColByKey [DecidableEq α] [Inhabited α] (d : Dataset α)
    (key : α) : Except PyErr (List α) :=
  match d.headers with
  | none => .error .typeError
  | some hs =>
      if key ∈ hs then
        let pos := hs.indexOf key
        if d.rows.all (fun r => decide (pos < r.cells.length)) then
          .ok (d.rows.map (fun r => r.cells.getD pos default))
        else .error .indexError
      else .error .keyError

/-- Python sequence read `l[i]` with an `Int` index: negative indices count
from the end; out of range raises `IndexError`. -/
def pyListGet (l : List β) (i : Int) : Except PyErr β :=
  let k : Int := if i < 0 then (l.length : Int) + i else i
  if h : 0 ≤ k ∧ k.toNat < l.length then .ok (l.get ⟨k.toNat, h.2⟩)
  else .error .indexError

/-- Integer-key branch of `Dataset.__getitem__` (lines 195-203): a single row
is returned as its tuple of cell values. -/
def Dataset.getRowTuple (d : Dataset α) (i : Int) : Except PyErr (List α) :=
  (pyListGet d.rows i).map (fun r => r.cells)

/-- `Dataset.get_col` (lines 715-718): `[row[index] for row in self._data]`;
a row shorter than the index raises `IndexError`.  (The range test is hoisted
in front of the projection; the raised value is identical.) -/
def Dataset.get_col [Inhabited α] (d : Dataset α) (index : Nat) :
    Except PyErr (List α) :=
  if d.rows.all (fun r => decide (index < r.cells.length)) then
    .ok (d.rows.map (fun r => r.cells.getD index default))
  else .error .indexError

/-- Argument accepted for the `col` parameter of `insert_col`: Python `None`,
a literal list of values, or a single-argument callable applied to every
existing `Row` (the dynamic-column form). -/
inductive ColArg (α : Type) : Type where
  | pynone
  | lit (l : List α)
  | fn (f : Row α → α)

/-- `Dataset._clean_col` (lines 447-468): operates on a fresh `list(col)`.
When the headers attribute is truthy the embedded header token is popped off
the front — `col.pop(0)` raises `IndexError` on an empty column — and glued
back on at the end, so for a non-empty column the function is the identity.
The `len(col) == 1 and hasattr(col[0], '__call__')` branch is vacuous here:
cell values in the model are data, never callables (the callable form of a
column is dispatched in `insert_col` before `_clean_col` runs). -/
def Dataset._clean_col (d : Dataset α) (col : List α) :
    Except PyErr (List α) :=
  if truthyHeaders d.headers then
    match col with
    | [] => .error .indexError
    | c :: cs => .ok (c :: cs)
  else .ok col

/-- `Dataset.insert_col` (lines 601-673), translated statement by statement:
`None` becomes `[]`; a callable column is materialised by mapping over the
rows; `_clean_col` and `_validate(col=col)` run next; with truthy headers a
missing `header` argument raises `HeadersNeeded`, a non-empty column on a
zero-height dataset raises `InvalidDimensions`, and otherwise the header is
spliced into the (already validated) header list; finally the column values
are spliced into every row (`col[i]` raises `IndexError` when the column is
shorter than the row count), or, when the dataset has no rows or no width,
the row list is rebuilt from the column. -/
def Dataset.insert_col (d : Dataset α) (index : Int) (colArg : ColArg α)
    (header : Option α) : Except PyErr (Dataset α) := do
  let col0 : List α :=
    match colArg with
    | .pynone => []
    | .fn f => d.rows.map f
    | .lit l => l
  let col ← d._clean_col col0
  _ ← d._validate none (some col) false
  let d1 : Dataset α ←
    match d.headers with
    | some (h0 :: htl) =>
        match header with
        | none => .error .headersNeeded
        | some h =>
            if d.height = 0 ∧ col.length ≠ 0 then .error .invalidDimensions
            else .ok { d with headers := some (pyListInsert (h0 :: htl) index h) }
    | _ => .ok d
  if d1.height ≠ 0 ∧ d1.width ≠ 0 then
    let newRows ← d1.rows.enum.mapM (fun p =>
      match col.get? p.1 with
      | some v => .ok (⟨pyListInsert p.2.cells index v, p.2.tags⟩ : Row α)
      | none => .error .indexError)
    .ok { d1 with rows := newRows }
  else
    .ok { d1 with rows := col.map (fun v => ⟨[v], []⟩) }

/-- `Dataset.rpush_col` (lines 675-680): insert at `self.width`. -/
def Dataset.rpush_col (d : Dataset α) (colArg : ColArg α) (header : Option α) :
    Except PyErr (Dataset α) :=
  d.insert_col (d.width : Int) colArg header

/-- `Dataset.lpush_col` (lines 682-687): insert at 0. -/
def Dataset.lpush_col (d : Dataset α) (colArg : ColArg α) (header : Option α) :
    Except PyErr (Dataset α) :=
  d.insert_col 0 colArg header

/-- `Dataset.append_col` (lines 708-713): delegates to `rpush_col`. -/
def Dataset.append_col (d : Dataset α) (colArg : ColArg α) (header : Option α) :
    Except PyErr (Dataset α) :=
  d.rpush_col colArg header

/-- Result shape of `Dataset._package`: with truthy headers and `dicts=True`
one ordered key-to-value record per row (an association list keeps the
`OrderedDict` key order); otherwise a list of plain value lists (`dicts=False`
puts the header list in front of the row lists). -/
inductive PackOut (α : Type) : Type where
  | recs (l : List (List (α × α)))
  | lists (l : List (List α))
deriving DecidableEq, Repr

/-- One formatter pass over one row's cells
(`core.py` lines 341-356, inner loop): `col is None` formats every cell of
the row (the enumeration reads each position before writing it, so this is a
map); an integer `col` rewrites that one position, raising
`InvalidDatasetIndex` via the `except IndexError` handler when the row is too
short. -/
def applyFmtsRow (fmts : List (Option Nat × (α → α))) (cells : List α) :
    Except PyErr (List α) :=
  fmts.foldlM (fun cs p =>
    match p.1 with
    | none => .ok (cs.map p.2)
    | some j =>
        if h : j < cs.length then .ok (cs.set j (p.2 (cs.get ⟨j, h⟩)))
        else .error .invalidDatasetIndex) cells

/-- `Dataset._package` (lines 329-371).  `_data = list(self._data)` copies
only the outer list: the `Row` objects themselves are shared with
`self._data`, and the formatter writes `_data[row_i][col] = ...` go through
`Row.__setitem__` on those shared objects.  The packaged dataset is therefore
returned *together with* its mutated row storage (first component); the
second component is the packaged output, computed from the formatted rows.
(`ordered` only selects `OrderedDict` versus `dict` and does not change the
association-list model.  On a formatter error Python leaves earlier rows
already formatted; the model's error case carries no partial state, and no
claim concerns a failing formatter.) -/
def Dataset._package (d : Dataset α) (dicts : Bool) :
    Except PyErr (Dataset α × PackOut α) := do
  let newRows ← d.rows.mapM (fun r =>
    (applyFmtsRow d.fmts r.cells).map (fun cs => (⟨cs, r.tags⟩ : Row α)))
  let d1 : Dataset α := { d with rows := newRows }
  let out : PackOut α :=
    match d.headers with
    | some (h0 :: htl) =>
        if dicts then
          .recs (newRows.map (fun r => (h0 :: htl).zip r.cells))
        else
          .lists ((h0 :: htl) :: newRows.map (fun r => r.cells))
    | _ => .lists (newRows.map (fun r => r.cells))
  .ok (d1, out)

/-- `Dataset._set_headers` (lines 381-393): validate the collection like a
row, then store a fresh copy of it, or `None` for a falsy collection. -/
def Dataset._set_headers (d : Dataset α) (collection : Option (List α)) :
    Except PyErr (Dataset α) := do
  _ ← d._validate collection none false
  match collection with
  | some (h0 :: htl) => .ok { d with headers := some (h0 :: htl) }
  | _ => .ok { d with headers := none }

/-- `Dataset.wipe` (lines 914-917): clears the rows and headers (formatters
are kept). -/
def Dataset.wipe (d : Dataset α) : Dataset α :=
  { d with rows := [], headers := none }

/-- One element of the Python list handed to the `dict` setter: a plain list,
or a dict (modelled as an ordered association list). -/
inductive PyRec (α : Type) : Type where
  | lst (l : List α)
  | dct (l : List (α × α))
deriving DecidableEq, Repr

/-- `list(x)` for a `PyRec`: listing a dict yields its keys. -/
def PyRec.toList : PyRec α → List α
  | .lst l => l
  | .dct l => l.map Prod.fst

/-- `x.values()` for a `PyRec`: a plain list has no `.values()` and raises
`AttributeError`. -/
def PyRec.values : PyRec α → Except PyErr (List α)
  | .lst _ => .error .attributeError
  | .dct l => .ok (l.map Prod.snd)

/-- `Dataset._set_dict` (lines 415-443): an empty input is a no-op; when the
first element is a list, the dataset is wiped and every element is appended
as a row; when it is a dict, the dataset is wiped, the first record's keys
become the headers, and every record's values are appended as a row. -/
def Dataset._set_dict (d : Dataset α) (pickle : List (PyRec α)) :
    Except PyErr (Dataset α) :=
  match pickle with
  | [] => .ok d
  | first :: _ =>
      match first with
      | .lst _ =>
          pickle.foldlM (fun acc item => acc.append item.toList []) d.wipe
      | .dct rec0 => do
          let d1 ← d.wipe._set_headers (some (rec0.map Prod.fst))
          pickle.foldlM (fun acc item => do
            let vs ← item.values
            acc.append vs []) d1

/-- The `for index, column in enumerate(self.headers)` loop of
`Dataset.transpose` (lines 829-839): a column equal to the first header is
skipped; any other column is turned into the row
`[column] + self.get_col(index)` and appended to the accumulator dataset
(`append` re-validates each row against the accumulator's width). -/
def transposeLoop [DecidableEq α] [Inhabited α] (d : Dataset α) (h0 : α) :
    List (Nat × α) → Dataset α → Except PyErr (Dataset α)
  | [], acc => .ok acc
  | (index, column) :: rest, acc =>
      if column = h0 then transposeLoop d h0 rest acc
      else do
        let colv ← d.get_col index
        let acc2 ← acc.append (column :: colv) []
        transposeLoop d h0 rest acc2

/-- `Dataset.transpose` (lines 811-840): `None` (modelled as `Option.none` in
the result) on an empty dataset; otherwise the new header row is
`[self.headers[0]] + self[self.headers[0]]` — `self.headers[0]` raises
`TypeError` when headers is `None` (and `IndexError` on an empty header list,
which the setter never stores) — and the remaining columns become rows via
the enumeration loop.  `self[self.headers[0]]` takes the string-key branch of
`__getitem__`: header values are strings by convention. -/
def Dataset.transpose [DecidableEq α] [Inhabited α] (d : Dataset α) :
    Except PyErr (Option (Dataset α)) :=
  if d.height = 0 then .ok none
  else
    match d.headers with
    | none => .error .typeError
    | some [] => .error .indexError
    | some (h0 :: htl) => do
        let col0 ← d.getColByKey h0
        let start ← (Dataset.mk [] none [])._set_headers (some (h0 :: col0))
        let res ← transposeLoop d h0 (List.enumFrom 0 (h0 :: htl)) start
        .ok (some res)

/-- The seen-set list comprehension of `Dataset.remove_duplicates`
(line 912): a row is kept iff its cell tuple has not been seen yet, and a
kept row's cell tuple is added to the seen set. -/
def dedupSeen [DecidableEq α] (seen : List (List α)) :
    List (Row α) → List (Row α)
  | [] => []
  | r :: rs =>
      if r.cells ∈ seen then dedupSeen seen rs
      else r :: dedupSeen (r.cells :: seen) rs

/-- `Dataset.remove_duplicates` (lines 901-912): rewrites `self._data[:]` in
place; headers and everything else are untouched. -/
def Dataset.remove_duplicates [DecidableEq α] (d : Dataset α) : Dataset α :=
  { d with rows := dedupSeen [] d.rows }

/-- Modelled from the spec's description of first-occurrence order (and used
only to state what `remove_duplicates` computes): keep the head row and
recursively drop every later row with the same cell tuple.  This is the
specification-side counterpart that `dedupSeen` is proved to refine. -/
def firstOccurrences [DecidableEq α] : List (Row α) → List (Row α)
  | [] => []
  | r :: rs =>
      r :: firstOccurrences (rs.filter (fun x => decide (x.cells ≠ r.cells)))
termination_by l => l.length
decreasing_by
  simp only [List.length_cons]
  exact Nat.lt_succ_of_le (List.length_filter_le _ _)

/-- `Dataset.stack_cols` (lines 864-899): header presence must agree
(`HeadersNeeded`), heights must agree (`InvalidDimensions`); the concatenated
header list is built (`TypeError` from `None + ...` is caught and yields
`None`); then every column of `self` and of `other` is appended by header
name to a fresh empty dataset — iterating `self.headers` when it is `None`
raises an uncaught `TypeError` — and the concatenated headers are installed
at the end. -/
def Dataset.stack_cols [DecidableEq α] [Inhabited α] (d other : Dataset α) :
    Except PyErr (Dataset α) := do
  if truthyHeaders d.headers || truthyHeaders other.headers then
    if !truthyHeaders d.headers || !truthyHeaders other.headers then
      throw .headersNeeded
  if d.height ≠ other.height then throw .invalidDimensions
  let newHeaders : Option (List α) :=
    match d.headers, other.headers with
    | some a, some b => some (a ++ b)
    | _, _ => none
  let hs1 ← match d.headers with
    | none => throw PyErr.typeError
    | some hs => pure hs
  let t1 ← hs1.foldlM (fun acc column => do
      let colv ← d.getColByKey column
      acc.append_col (.lit colv) none) (Dataset.mk [] none [])
  let hs2 ← match other.headers with
    | none => throw PyErr.typeError
    | some hs => pure hs
  let t2 ← hs2.foldlM (fun acc column => do
      let colv ← other.getColByKey column
      acc.append_col (.lit colv) none) t1
  t2._set_headers newHeaders

/-!
Store model for the shallow-copy transformations.  `Dataset.filter` and
`Dataset.stack` (lines 752-761, 842-862) build their result with
`copy.copy(self)`: the returned dataset holds *the same* `Row` objects and
*the same* headers list object as the receiver, so mutations performed
through the result are visible in the source.  To state claims about this
aliasing, `Row` objects and header lists live in a heap (`World`) and a
dataset holds indices into it (`DSRef`). -/

/-- Object heap: `rowHeap` holds the live `Row` objects, `hdrHeap` the live
header list objects. -/
structure World (α : Type) : Type where
  rowHeap : List (Row α)
  hdrHeap : List (List α)
deriving DecidableEq, Repr

/-- A dataset as a set of references: row object ids in order, and an
optional header object id (`None` models `self.__headers is None`). -/
structure DSRef : Type where
  dataIds : List Nat
  headersRef : Option Nat
deriving DecidableEq, Repr

/-- Dereference one row object id. -/
def World.rowAt (w : World α) (rid : Nat) : Row α :=
  w.rowHeap.getD rid default

/-- The row objects of a referenced dataset, in order. -/
def derefRows (w : World α) (d : DSRef) : List (Row α) :=
  d.dataIds.map w.rowAt

/-- The headers of a referenced dataset. -/
def derefHeaders (w : World α) (d : DSRef) : Option (List α) :=
  d.headersRef.map (fun hid => w.hdrHeap.getD hid [])

/-- `Dataset.width` read through the heap. -/
def widthRef (w : World α) (d : DSRef) : Nat :=
  match d.dataIds with
  | rid :: _ => (w.rowAt rid).cells.length
  | [] =>
      match derefHeaders w d with
      | some hs => hs.length
      | none => 0

/-- The invariants of claim C2, decidably: every row's length equals the
width, and when headers are set their length equals the width as well. -/
def invariantB (w : World α) (d : DSRef) : Bool :=
  (derefRows w d).all (fun r => r.cells.length == widthRef w d) &&
  (match derefHeaders w d with
   | some hs => hs.length == widthRef w d
   | none => true)

/-- Well-formed reference: every id points into the heap. -/
def wfRefB (w : World α) (d : DSRef) : Bool :=
  d.dataIds.all (fun rid => decide (rid < w.rowHeap.length)) &&
  (match d.headersRef with
   | some hid => decide (hid < w.hdrHeap.length)
   | none => true)

/-- `Dataset.filter` (lines 752-761): `copy.copy(self)` shares the headers
list object; the filtered row list holds the very same `Row` objects that
carry the tag. -/
def filterRef (w : World α) (d : DSRef) (tag : TagArg) : DSRef :=
  { dataIds := d.dataIds.filter (fun rid => (w.rowAt rid).has_tag tag),
    headersRef := d.headersRef }

/-- `Dataset.stack` (lines 842-862): widths must agree; the result is a
shallow copy of `self` whose row list is `self`'s row objects followed by
`other`'s row objects, headers shared with `self`. -/
def stackRef (w : World α) (d other : DSRef) : Except PyErr DSRef :=
  if widthRef w d ≠ widthRef w other then .error .invalidDimensions
  else .ok { dataIds := d.dataIds ++ other.dataIds, headersRef := d.headersRef }

/-- Materialise a referenced dataset as a plain `Dataset` value (no
formatters are relevant to the stacked/filtered invariants). -/
def toDataset (w : World α) (d : DSRef) : Dataset α :=
  { rows := derefRows w d, headers := derefHeaders w d, fmts := [] }

/-- `Dataset.stack_cols` in the store model: the computation is the
functional `Dataset.stack_cols` on the dereferenced operands, and — because
the source builds its result from a fresh `Dataset()` whose rows are fresh
`Row` objects created inside `insert_col` and whose headers are stored as a
fresh `list(collection)` by `_set_headers` — every object of the result is
freshly allocated at the end of the heaps; nothing is shared with either
operand. -/
def stackColsRef [DecidableEq α] [Inhabited α] (w : World α) (d other : DSRef) :
    Except PyErr (World α × DSRef) := do
  let res ← (toDataset w d).stack_cols (toDataset w other)
  let base := w.rowHeap.length
  let newHdrs : List (List α) :=
    match res.headers with
    | some hs => [hs]
    | none => []
  .ok (⟨w.rowHeap ++ res.rows, w.hdrHeap ++ newHdrs⟩,
       ⟨(List.range res.rows.length).map (fun k => base + k),
        match res.headers with
        | some _ => some w.hdrHeap.length
        | none => none⟩)

/-- `Row.__setitem__` (lines 60-62) on a heap row: `row[j] = v` rewrites the
cell in place (out of range raises `IndexError`; a dangling id cannot occur
for a well-formed reference and is mapped to `IndexError` as well). -/
def setRowCell (w : World α) (rid j : Nat) (v : α) : Except PyErr (World α) :=
  match w.rowHeap.get? rid with
  | none => .error .indexError
  | some r =>
      if j < r.cells.length then
        .ok { w with rowHeap := w.rowHeap.set rid ⟨r.cells.set j v, r.tags⟩ }
      else .error .indexError

/-- String-key branch of `Dataset.__delitem__` (lines 219-235) through the
heap: `key in self.headers` raises `TypeError` on `None` headers and
`KeyError` when absent; otherwise the header is deleted from the *shared*
headers list object and the cell at that position is deleted from every
*shared* row object in turn (`del row[pos]` raises `IndexError` on a row
that is too short). -/
def delColRef [DecidableEq α] (w : World α) (d : DSRef) (key : α) :
    Except PyErr (World α) :=
  match derefHeaders w d with
  | none => .error .typeError
  | some hs =>
      if key ∈ hs then
        let pos := hs.indexOf key
        let w1 : World α :=
          match d.headersRef with
          | some hid => { w with hdrHeap := w.hdrHeap.set hid (hs.eraseIdx pos) }
          | none => w
        d.dataIds.foldlM (fun wAcc rid =>
          let r := wAcc.rowAt rid
          if pos < r.cells.length then
            .ok { wAcc with
                  rowHeap := wAcc.rowHeap.set rid ⟨r.cells.eraseIdx pos, r.tags⟩ }
          else .error .indexError) w1
      else .error .keyError

/-!  Theorems settling the claims. -/

/-- The `dict` getter (lines 400-413, 445): `return self._package()`. -/
def Dataset.getDict (d : Dataset α) : Except PyErr (Dataset α × PackOut α) :=
  d._package true

/-- The dataset of claim C6: headers `["a","b"]`, rows `[(1,2),(3,4)]`. -/
def c6Dataset : Dataset PV :=
  ⟨[⟨[PV.i 1, PV.i 2], []⟩, ⟨[PV.i 3, PV.i 4], []⟩],
   some [PV.s "a", PV.s "b"], []⟩

/-- C6 (confirmed): on the dataset with headers `["a","b"]` and rows
`[(1,2),(3,4)]` the `dict` getter produces one ordered record per row with
keys in header order, and feeding that record list to the `dict` setter of a
fresh dataset reproduces identical headers and rows. -/
theorem c6_dict_round_trip :
    (c6Dataset.getDict).map Prod.snd =
      .ok (.recs [[(PV.s "a", PV.i 1), (PV.s "b", PV.i 2)],
                  [(PV.s "a", PV.i 3), (PV.s "b", PV.i 4)]]) ∧
    ((Dataset.mk ([] : List (Row PV)) none [])._set_dict
        [.dct [(PV.s "a", PV.i 1), (PV.s "b", PV.i 2)],
         .dct [(PV.s "a", PV.i 3), (PV.s "b", PV.i 4)]]).map
        (fun d => (d.headers, d.rows)) =
      .ok (some [PV.s "a", PV.s "b"],
           [⟨[PV.i 1, PV.i 2], []⟩, ⟨[PV.i 3, PV.i 4], []⟩]) :=
  ⟨rfl, rfl⟩

/-- C9 (confirmed): with headers unset, string-key indexing fails with the
`TypeError` raised by `key in self.headers` on `None`, not with the
`KeyError` used when headers are set but the name is missing. -/
theorem c9_getitem_no_headers_type_error [DecidableEq α] [Inhabited α]
    (d : Dataset α) (key : α) :
    (d.headers = none → d.getColByKey key = .error .typeError) ∧
    (∀ hs, d.headers = some hs → key ∉ hs →
      d.getColByKey key = .error .keyError) := by
  constructor
  · intro h
    simp [Dataset.getColByKey, h]
  · intro hs h hmem
    simp [Dataset.getColByKey, h, hmem]

/-- C9 witness: a headerless dataset raises the `TypeError`-kind failure, and
a dataset with headers but a missing name raises the `KeyError` kind. -/
theorem c9_getitem_no_headers_type_error_witness :
    (Dataset.mk [⟨[PV.i 1], []⟩] none []).getColByKey (PV.s "a") =
      .error .typeError ∧
    (Dataset.mk [⟨[PV.i 1], []⟩] (some [PV.s "x"]) []).getColByKey (PV.s "a") =
      .error .keyError :=
  ⟨(c9_getitem_no_headers_type_error _ _).1 rfl,
   (c9_getitem_no_headers_type_error _ _).2 [PV.s "x"] rfl (by decide)⟩

/-- An `Except` bind on an error short-circuits. -/
theorem errBind (e : PyErr) (f : β → Except PyErr γ) :
    (Except.error e >>= f : Except PyErr γ) = .error e := rfl

/-- An `Except` bind on a success applies the continuation. -/
theorem okBind (b : β) (f : β → Except PyErr γ) :
    (Except.ok b >>= f : Except PyErr γ) = f b := rfl

/-- C10 (confirmed): with truthy headers, `insert_col` with `col=None` or an
empty literal column dies in `_clean_col` with the uncaught `IndexError` from
`col.pop(0)` on an empty list, before `HeadersNeeded`/`InvalidDimensions` can
be reached — for any `header` argument. -/
theorem c10_insert_col_empty_index_error (d : Dataset α) (index : Int)
    (header : Option α) (hh : truthyHeaders d.headers = true) :
    d.insert_col index .pynone header = .error .indexError ∧
    d.insert_col index (.lit []) header = .error .indexError := by
  have hclean : d._clean_col [] = .error .indexError := by
    simp [Dataset._clean_col, hh]
  constructor <;>
    simp only [Dataset.insert_col, hclean, errBind]

/-- C10 witness: a concrete dataset with headers, exercised on both the
`col=None` and the empty-literal forms, with a header argument supplied. -/
theorem c10_insert_col_empty_index_error_witness :
    (Dataset.mk [⟨[PV.i 1, PV.i 2], []⟩] (some [PV.s "x", PV.s "y"]) []
      ).insert_col 1 .pynone (some (PV.s "z")) = .error .indexError ∧
    (Dataset.mk [⟨[PV.i 1, PV.i 2], []⟩] (some [PV.s "x", PV.s "y"]) []
      ).insert_col 1 (.lit []) (some (PV.s "z")) = .error .indexError :=
  c10_insert_col_empty_index_error _ 1 (some (PV.s "z")) (by decide)

/-- C8 (confirmed): with truthy headers and at least one row, inserting a
height-matching literal column without a `header` argument raises
`HeadersNeeded` (through `insert_col` and all three positional wrappers), and
the raise happens before any mutation. -/
theorem c8_insert_col_needs_header (d : Dataset α) (index : Int)
    (col : List α) (hh : truthyHeaders d.headers = true)
    (hht : 0 < d.height) (hlen : col.length = d.height) :
    d.insert_col index (.lit col) none = .error .headersNeeded ∧
    d.rpush_col (.lit col) none = .error .headersNeeded ∧
    d.lpush_col (.lit col) none = .error .headersNeeded ∧
    d.append_col (.lit col) none = .error .headersNeeded := by
  have key : ∀ idx : Int,
      d.insert_col idx (.lit col) none = .error .headersNeeded := by
    intro idx
    obtain ⟨c, cs, rfl⟩ : ∃ c cs, col = c :: cs := by
      cases col with
      | nil => rw [← hlen] at hht; simp at hht
      | cons c cs => exact ⟨c, cs, rfl⟩
    obtain ⟨h0, htl, hhd⟩ : ∃ h0 htl, d.headers = some (h0 :: htl) := by
      unfold truthyHeaders at hh
      match hhs : d.headers with
      | some (h0 :: htl) => exact ⟨h0, htl, rfl⟩
      | some [] => rw [hhs] at hh; simp at hh
      | none => rw [hhs] at hh; simp at hh
    have hvalid : d._validate none (some (c :: cs)) false = .ok true := by
      have h1 : ¬ (c :: cs).length < 1 := by simp
      have h2 : d.height ≠ 0 := by omega
      have hb : validShape d none (some (c :: cs)) = true := by
        simp [validShape, h1, h2, hlen]
      simp [Dataset._validate, hb]
    have hclean : d._clean_col (c :: cs) = .ok (c :: cs) := by
      simp [Dataset._clean_col, hh]
    simp only [Dataset.insert_col, hclean, okBind, hvalid, hhd, errBind]
  exact ⟨key index, key _, key _, key _⟩

/-- C8 witness: a two-column dataset with headers and one row, a length-1
literal column, and no header argument. -/
theorem c8_insert_col_needs_header_witness :
    (Dataset.mk [⟨[PV.i 1, PV.i 2], []⟩] (some [PV.s "x", PV.s "y"]) []
      ).insert_col 1 (.lit [PV.i 7]) none = .error .headersNeeded :=
  (c8_insert_col_needs_header _ 1 [PV.i 7] (by decide) (by decide)
    (by decide)).1

/-- The dataset of claim C1's failing input: one row `["a"]`, no headers, and
an uppercase formatter registered on column 0. -/
def c1Dataset : Dataset PV :=
  ⟨[⟨[PV.s "a"], []⟩], none, [(some 0, fun _ => PV.s "A")]⟩

/-- The same dataset object after `_package` has run: the stored row now
holds the formatted value (the formatter list itself is untouched). -/
def c1Packaged : Dataset PV :=
  ⟨[⟨[PV.s "A"], []⟩], none, c1Dataset.fmts⟩

/-- C1 (code_bug): `_package` copies only the outer row list, so the
formatter write `_data[row_i][col] = callback(row[col])` mutates the `Row`
objects still stored in the dataset: after packaging the stored cell is
`"A"`, not the original `"a"`, and direct row indexing on the same dataset
returns the mutated value. -/
theorem c1_package_mutates_stored_rows :
    c1Dataset.rows = [⟨[PV.s "a"], []⟩] ∧
    c1Dataset.getRowTuple 0 = .ok [PV.s "a"] ∧
    c1Dataset._package true = .ok (c1Packaged, .lists [[PV.s "A"]]) ∧
    c1Packaged.getRowTuple 0 = .ok [PV.s "A"] ∧
    c1Packaged.rows ≠ c1Dataset.rows :=
  ⟨rfl, rfl, rfl, rfl, by decide⟩

/-- The dataset of claim C3's counterexample: width 2, no headers. -/
def c3Dataset : Dataset PV :=
  ⟨[⟨[PV.i 1, PV.i 2], []⟩], none, []⟩

/-- C3 (corrected), counterexample: the claim quantifies over *every* row
whose length differs from the width, but an empty row is falsy, skips the
`if row:` dimension check in `_validate`, and is inserted: no
`InvalidDimensions` and the row sequence changes. -/
theorem c3_counterexample :
    c3Dataset.width = 2 ∧
    ([] : List PV).length ≠ c3Dataset.width ∧
    c3Dataset.insert 0 [] [] =
      .ok ⟨[⟨[], []⟩, ⟨[PV.i 1, PV.i 2], []⟩], none, []⟩ :=
  ⟨rfl, by decide, rfl⟩

/-- C3 (corrected), amended claim: for every dataset with `width > 0` and
every *non-empty* row whose length differs from that width, `insert` (and
`append`/`rpush`/`lpush`) fails with `InvalidDimensions`; the raise happens
before the row list is touched, so the rows are unchanged in count and
content. -/
theorem c3_amended_nonempty_row_mismatch (d : Dataset α) (index : Int)
    (row : List α) (tags : List String) (hw : 0 < d.width) (hne : row ≠ [])
    (hlen : row.length ≠ d.width) :
    d.insert index row tags = .error .invalidDimensions ∧
    d.rpush row tags = .error .invalidDimensions ∧
    d.lpush row tags = .error .invalidDimensions ∧
    d.append row tags = .error .invalidDimensions := by
  have key : ∀ idx : Int, d.insert idx row tags = .error .invalidDimensions := by
    intro idx
    obtain ⟨c, cs, rfl⟩ := List.exists_cons_of_ne_nil hne
    have h2 : d.width ≠ 0 := by omega
    have hb : validShape d (some (c :: cs)) none = false := by
      simp only [validShape, h2, if_true, ne_eq, not_false_eq_true, if_pos]
      simpa using hlen
    have hv : d._validate (some (c :: cs)) none false =
        .error .invalidDimensions := by
      simp [Dataset._validate, hb]
    simp only [Dataset.insert, hv, errBind]
  exact ⟨key index, key _, key _, key _⟩

/-- C3 amended witness: inserting the non-empty row `[7]` into a width-2
dataset raises `InvalidDimensions`. -/
theorem c3_amended_nonempty_row_mismatch_witness :
    c3Dataset.insert 0 [PV.i 7] [] = .error .invalidDimensions :=
  (c3_amended_nonempty_row_mismatch c3Dataset 0 [PV.i 7] [] (by decide)
    (by decide) (by decide)).1

/-- C4 (corrected), counterexample: inserting `[1]` into an empty dataset
succeeds (height 0 becomes 1) but the width changes from 0 to 1, so "width is
unchanged" fails for this successful insertion. -/
theorem c4_counterexample :
    (Dataset.mk ([] : List (Row PV)) none []).width = 0 ∧
    (Dataset.mk ([] : List (Row PV)) none []).insert 0 [PV.i 1] [] =
      .ok ⟨[⟨[PV.i 1], []⟩], none, []⟩ ∧
    (Dataset.mk [⟨[PV.i 1], []⟩] none []).width = 1 :=
  ⟨rfl, rfl, rfl⟩

/-- The take/drop insertion underlying `pyListInsert` always grows the list
by one. -/
theorem insertAt_length (l : List β) (k : Nat) (x : β) :
    (l.take k ++ x :: l.drop k).length = l.length + 1 := by
  simp only [List.length_append, List.length_cons, List.length_take,
    List.length_drop]
  omega

/-- `pyListInsert` always grows the list by one. -/
theorem pyListInsert_length (l : List β) (i : Int) (x : β) :
    (pyListInsert l i x).length = l.length + 1 :=
  insertAt_length l _ x

/-- `pyListInsert` is a take/drop insertion at some cut point. -/
theorem pyListInsert_eq_insertAt (l : List β) (i : Int) (x : β) :
    ∃ k, pyListInsert l i x = l.take k ++ x :: l.drop k :=
  ⟨_, rfl⟩

/-- C4 (corrected), amended claim: every successful row insertion raises the
height by exactly one; the width is unchanged provided the dataset already
had positive width and the inserted row is non-empty (an empty row slips
past validation and, placed at index 0, redefines the width, and an
insertion into an empty widthless dataset sets the width to the row's
length). -/
theorem c4_amended_insert_shape (d d2 : Dataset α) (index : Int)
    (row : List α) (tags : List String)
    (h : d.insert index row tags = .ok d2) :
    d2.height = d.height + 1 ∧
    (0 < d.width → row ≠ [] → d2.width = d.width) := by
  obtain ⟨b, hval⟩ : ∃ b, d._validate (some row) none false = .ok b := by
    cases hval : d._validate (some row) none false with
    | error e =>
        rw [Dataset.insert] at h
        rw [hval] at h
        exact absurd h (by simp [errBind])
    | ok b => exact ⟨b, rfl⟩
  have hd2 : d2 = { d with rows := pyListInsert d.rows index ⟨row, tags⟩ } := by
    rw [Dataset.insert] at h
    rw [hval, okBind] at h
    exact (Except.ok.inj h).symm
  constructor
  · rw [hd2]
    show (pyListInsert d.rows index ⟨row, tags⟩).length = d.rows.length + 1
    exact pyListInsert_length _ _ _
  · intro hw hne
    obtain ⟨c, cs, rfl⟩ := List.exists_cons_of_ne_nil hne
    have h2 : d.width ≠ 0 := by omega
    have hb : validShape d (some (c :: cs)) none = true := by
      cases hvs : validShape d (some (c :: cs)) none with
      | true => rfl
      | false =>
          have : d._validate (some (c :: cs)) none false =
              .error .invalidDimensions := by
            simp [Dataset._validate, hvs]
          rw [this] at hval
          exact nomatch hval
    have hlen : (c :: cs).length = d.width := by
      simp [validShape, h2] at hb
      simpa using hb
    obtain ⟨k, hk⟩ := pyListInsert_eq_insertAt d.rows index
      (⟨c :: cs, tags⟩ : Row α)
    rw [hd2]
    cases hrows : d.rows with
    | nil =>
        rw [hrows] at hk
        simp only [List.take_nil, List.drop_nil, List.nil_append] at hk
        rw [hk]
        simpa [Dataset.width] using hlen
    | cons r rest =>
        have hwidth : d.width = r.cells.length := by
          simp [Dataset.width, hrows]
        rw [hrows] at hk
        cases k with
        | zero =>
            simp only [List.take_zero, List.drop_zero, List.nil_append] at hk
            rw [hk]
            simpa [Dataset.width] using hlen
        | succ k =>
            rw [List.take_succ_cons, List.drop_succ_cons] at hk
            rw [hk, hwidth]
            simp [Dataset.width]

/-- C4 amended witness: appending a matching row to a width-2 dataset with
one row yields height 2 and width 2. -/
theorem c4_amended_insert_shape_witness :
    (⟨[⟨[PV.i 3, PV.i 4], []⟩, ⟨[PV.i 1, PV.i 2], []⟩], none, []⟩
      : Dataset PV).height = c3Dataset.height + 1 ∧
    (0 < c3Dataset.width → [PV.i 3, PV.i 4] ≠ [] →
      (⟨[⟨[PV.i 3, PV.i 4], []⟩, ⟨[PV.i 1, PV.i 2], []⟩], none, []⟩
        : Dataset PV).width = c3Dataset.width) :=
  c4_amended_insert_shape c3Dataset _ 0 [PV.i 3, PV.i 4] [] rfl


/-- The seen-set comprehension equals the first-occurrence filter of the rows
whose cell tuples are not yet in `seen`. -/
theorem dedupSeen_eq_firstOccurrences [DecidableEq α] (seen : List (List α)) :
    (l : List (Row α)) →
    dedupSeen seen l =
      firstOccurrences (l.filter (fun x => decide (x.cells ∉ seen)))
  | [] => by simp [dedupSeen, firstOccurrences]
  | r :: rs => by
      rw [show dedupSeen seen (r :: rs) =
          (if r.cells ∈ seen then dedupSeen seen rs
           else r :: dedupSeen (r.cells :: seen) rs) from rfl]
      by_cases hmem : r.cells ∈ seen
      · rw [if_pos hmem, dedupSeen_eq_firstOccurrences seen rs]
        congr 1
        simp [List.filter_cons, hmem]
      · rw [if_neg hmem, dedupSeen_eq_firstOccurrences (r.cells :: seen) rs]
        have hfil : rs.filter (fun x => decide (x.cells ∉ r.cells :: seen)) =
            (rs.filter (fun x => decide (x.cells ∉ seen))).filter
              (fun x => decide (x.cells ≠ r.cells)) := by
          rw [List.filter_filter]
          apply List.filter_congr
          intro x hx
          simp [List.mem_cons, not_or, and_comm]
        rw [hfil]
        have hcons : (r :: rs).filter (fun x => decide (x.cells ∉ seen)) =
            r :: rs.filter (fun x => decide (x.cells ∉ seen)) := by
          simp [List.filter_cons, hmem]
        rw [hcons, firstOccurrences]

/-- Filtering by a predicate that only looks at the cell tuple commutes with
taking first occurrences (duplicates share their cell tuple, hence their
predicate value). -/
theorem firstOccurrences_filter [DecidableEq α] (p : Row α → Bool)
    (hp : ∀ x y : Row α, x.cells = y.cells → p x = p y) :
    (l : List (Row α)) →
    (firstOccurrences l).filter p = firstOccurrences (l.filter p)
  | [] => by simp [firstOccurrences]
  | r :: rs => by
      have hcomm : ∀ (p1 p2 : Row α → Bool) (m : List (Row α)),
          (m.filter p1).filter p2 = (m.filter p2).filter p1 := by
        intro p1 p2 m
        rw [List.filter_filter, List.filter_filter]
        apply List.filter_congr
        intro x hx
        exact Bool.and_comm _ _
      have hF : firstOccurrences (r :: rs) =
          r :: firstOccurrences
            (rs.filter (fun x => decide (x.cells ≠ r.cells))) := by
        rw [firstOccurrences]
      rw [hF]
      have ih := firstOccurrences_filter p hp
        (rs.filter (fun x => decide (x.cells ≠ r.cells)))
      by_cases hq : p r = true
      · have hfr : (r :: rs).filter p = r :: rs.filter p := by
          simp [List.filter_cons, hq]
        rw [hfr]
        have hF2 : firstOccurrences (r :: rs.filter p) =
            r :: firstOccurrences
              ((rs.filter p).filter (fun x => decide (x.cells ≠ r.cells))) := by
          rw [firstOccurrences]
        rw [hF2]
        have hfc : (r :: firstOccurrences
            (rs.filter (fun x => decide (x.cells ≠ r.cells)))).filter p =
            r :: (firstOccurrences
              (rs.filter (fun x => decide (x.cells ≠ r.cells)))).filter p := by
          simp [List.filter_cons, hq]
        rw [hfc, ih, hcomm]
      · have hfr : (r :: rs).filter p = rs.filter p := by
          simp [List.filter_cons, hq]
        rw [hfr]
        have hfc : (r :: firstOccurrences
            (rs.filter (fun x => decide (x.cells ≠ r.cells)))).filter p =
            (firstOccurrences
              (rs.filter (fun x => decide (x.cells ≠ r.cells)))).filter p := by
          simp [List.filter_cons, hq]
        rw [hfc, ih, hcomm]
        congr 1
        apply List.filter_eq_self.mpr
        intro x hx
        rcases List.mem_filter.mp hx with ⟨hxm, hxq⟩
        have hne : x.cells ≠ r.cells := by
          intro hcontra
          rw [hp x r hcontra] at hxq
          exact hq hxq
        simpa using hne
termination_by l => l.length
decreasing_by
  all_goals
    simp only [List.length_cons]
    exact Nat.lt_succ_of_le (List.length_filter_le _ _)

/-- Taking first occurrences is idempotent. -/
theorem firstOccurrences_idem [DecidableEq α] :
    (l : List (Row α)) →
    firstOccurrences (firstOccurrences l) = firstOccurrences l
  | [] => by simp [firstOccurrences]
  | r :: rs => by
      have hF : firstOccurrences (r :: rs) =
          r :: firstOccurrences
            (rs.filter (fun x => decide (x.cells ≠ r.cells))) := by
        rw [firstOccurrences]
      rw [hF]
      have hF2 : firstOccurrences (r :: firstOccurrences
            (rs.filter (fun x => decide (x.cells ≠ r.cells)))) =
          r :: firstOccurrences
            ((firstOccurrences
              (rs.filter (fun x => decide (x.cells ≠ r.cells)))).filter
                (fun x => decide (x.cells ≠ r.cells))) := by
        rw [firstOccurrences]
      rw [hF2]
      rw [firstOccurrences_filter (fun x => decide (x.cells ≠ r.cells))
        (fun x y hxy => by simp [hxy])]
      have hidem : ((rs.filter (fun x => decide (x.cells ≠ r.cells))).filter
            (fun x => decide (x.cells ≠ r.cells))) =
          rs.filter (fun x => decide (x.cells ≠ r.cells)) := by
        rw [List.filter_filter]
        apply List.filter_congr
        intro x hx
        exact Bool.and_self _
      rw [hidem, firstOccurrences_idem
        (rs.filter (fun x => decide (x.cells ≠ r.cells)))]
termination_by l => l.length
decreasing_by
  simp only [List.length_cons]
  exact Nat.lt_succ_of_le (List.length_filter_le _ _)

/-- C7 (confirmed): `remove_duplicates` keeps exactly the first occurrence of
each distinct cell tuple, in first-occurrence order (it computes the
specification-side `firstOccurrences`), it is idempotent, and it rewrites
only the row list in place (headers untouched). -/
theorem c7_remove_duplicates_first_occurrence_idem [DecidableEq α]
    (d : Dataset α) :
    d.remove_duplicates.rows = firstOccurrences d.rows ∧
    d.remove_duplicates.remove_duplicates = d.remove_duplicates ∧
    d.remove_duplicates.headers = d.headers := by
  have hrows : ∀ l : List (Row α), dedupSeen [] l = firstOccurrences l := by
    intro l
    rw [dedupSeen_eq_firstOccurrences]
    congr 1
    apply List.filter_eq_self.mpr
    intro x hx
    simp
  refine ⟨hrows d.rows, ?_, rfl⟩
  show ({ d with rows := dedupSeen [] d.rows } : Dataset α).remove_duplicates
    = { d with rows := dedupSeen [] d.rows }
  unfold Dataset.remove_duplicates
  simp only [hrows, firstOccurrences_idem]

/-- The world of claim C2's scenario: two row objects (the first tagged
`"t"`), one shared headers object `["a","b"]`. -/
def c2World : World PV :=
  ⟨[⟨[PV.i 1, PV.i 2], ["t"]⟩, ⟨[PV.i 3, PV.i 4], []⟩], [[PV.s "a", PV.s "b"]]⟩

/-- The source dataset `D` of claim C2: both rows, the headers object. -/
def c2D : DSRef := ⟨[0, 1], some 0⟩

/-- The world after deleting column `"a"` through the filtered result: the
shared first row and the shared headers object have lost a cell, the second
row (not in the filtered result) has not. -/
def c2WorldBroken : World PV :=
  ⟨[⟨[PV.i 2], ["t"]⟩, ⟨[PV.i 3, PV.i 4], []⟩], [[PV.s "b"]]⟩

/-- C2 (corrected), counterexample: `R = D.filter("t")` shares its row
objects and its headers list with `D`; deleting column `"a"` on `R` shortens
the shared header list and only the rows carrying the tag, leaving `D` with
rows of lengths 1 and 2 — `D`'s rectangularity invariant is destroyed by a
mutation of `R`. -/
theorem c2_counterexample :
    invariantB c2World c2D = true ∧
    filterRef c2World c2D (.one "t") = ⟨[0], some 0⟩ ∧
    delColRef c2World (filterRef c2World c2D (.one "t")) (PV.s "a") =
      .ok c2WorldBroken ∧
    invariantB c2WorldBroken c2D = false := by
  refine ⟨by decide, by decide, ?_, by decide⟩
  rfl

/-- Rows appended behind the heap do not change what well-formed ids see. -/
theorem rowAt_append (w : World α) (X : List (Row α)) (Y : List (List α))
    (rid : Nat) (h : rid < w.rowHeap.length) :
    (World.mk (w.rowHeap ++ X) (w.hdrHeap ++ Y)).rowAt rid = w.rowAt rid := by
  unfold World.rowAt
  exact List.getD_append _ _ _ _ h

/-- Any world transformation that preserves the headers heap and the length
of every row object preserves the C2 invariants of every reference. -/
theorem rowLenEq_invariantB (w w2 : World α) (d : DSRef)
    (hh : w2.hdrHeap = w.hdrHeap)
    (hr : ∀ k, (w2.rowAt k).cells.length = (w.rowAt k).cells.length) :
    invariantB w2 d = invariantB w d := by
  have hhdrs : derefHeaders w2 d = derefHeaders w d := by
    unfold derefHeaders
    rw [hh]
  have hwidth : widthRef w2 d = widthRef w d := by
    unfold widthRef
    cases hd : d.dataIds with
    | nil => rw [hhdrs]
    | cons rid rest => exact hr rid
  have hall : ∀ ids : List Nat,
      (ids.map w2.rowAt).all (fun r => r.cells.length == widthRef w d) =
      (ids.map w.rowAt).all (fun r => r.cells.length == widthRef w d) := by
    intro ids
    induction ids with
    | nil => rfl
    | cons i is ih => simp [List.all_cons, ih, hr i]
  unfold invariantB
  rw [hwidth, hhdrs]
  unfold derefRows
  rw [hall d.dataIds]

/-- Extending the heaps with fresh objects does not change the C2 invariants
of a well-formed reference. -/
theorem invariantB_extend (w : World α) (X : List (Row α))
    (Y : List (List α)) (d : DSRef) (hwf : wfRefB w d = true) :
    invariantB ⟨w.rowHeap ++ X, w.hdrHeap ++ Y⟩ d = invariantB w d := by
  have hwf2 := hwf
  unfold wfRefB at hwf2
  rw [Bool.and_eq_true] at hwf2
  obtain ⟨h1, h2⟩ := hwf2
  have hids : ∀ rid ∈ d.dataIds, rid < w.rowHeap.length := by
    intro rid hr
    have := List.all_eq_true.mp h1 rid hr
    simpa using this
  have hrows : derefRows ⟨w.rowHeap ++ X, w.hdrHeap ++ Y⟩ d = derefRows w d := by
    unfold derefRows
    apply List.map_congr_left
    intro rid hr
    exact rowAt_append w X Y rid (hids rid hr)
  have hhdrs : derefHeaders ⟨w.rowHeap ++ X, w.hdrHeap ++ Y⟩ d =
      derefHeaders w d := by
    unfold derefHeaders
    cases hhr : d.headersRef with
    | none => rfl
    | some hid =>
        have hlt : hid < w.hdrHeap.length := by
          rw [hhr] at h2
          simpa using h2
        exact congrArg some (List.getD_append _ _ _ _ hlt)
  have hwidth : widthRef ⟨w.rowHeap ++ X, w.hdrHeap ++ Y⟩ d = widthRef w d := by
    unfold widthRef
    cases hd : d.dataIds with
    | nil =>
        simp only [hd]
        rw [hhdrs]
    | cons rid rest =>
        simp only [hd]
        rw [rowAt_append w X Y rid (hids rid (by rw [hd]; exact List.mem_cons_self _ _))]
  unfold invariantB
  rw [hrows, hhdrs, hwidth]

/-- A successful `Row.__setitem__` through the heap preserves the headers
heap and every row object's length. -/
theorem setRowCell_ok (w : World α) (rid j : Nat) (v : α) (w2 : World α)
    (h : setRowCell w rid j v = .ok w2) :
    w2.hdrHeap = w.hdrHeap ∧
    ∀ k, (w2.rowAt k).cells.length = (w.rowAt k).cells.length := by
  unfold setRowCell at h
  split at h
  · exact nomatch h
  · rename_i r hg
    split at h
    · rename_i hj
      have hw2 : w2 =
          { w with rowHeap := w.rowHeap.set rid ⟨r.cells.set j v, r.tags⟩ } :=
        (Except.ok.inj h).symm
      subst hw2
      refine ⟨rfl, ?_⟩
      intro k
      unfold World.rowAt
      rw [List.getD_eq_get?, List.getD_eq_get?, List.get?_set]
      by_cases hk : rid = k
      · subst hk
        rw [if_pos rfl, hg]
        simp [List.length_set]
      · rw [if_neg hk]
    · exact nomatch h

/-- C2 (corrected), amended claim: for `R` obtained from `D` by `filter`,
`stack` or `stack_cols`, *modifying a cell* of one of `R`'s rows never breaks
`D`'s invariants — every row of `D` keeps its length equal to `D`'s width and
`D`'s headers length stays equal to `D`'s width.  (A structural mutation such
as deleting a column by header on a `filter` result does corrupt `D`, as the
counterexample shows, because `filter`/`stack` share row objects and the
headers list with `D`.) -/
theorem c2_amended_cell_set_keeps_invariants [DecidableEq α] [Inhabited α]
    (w w1 w2 : World α) (d other R : DSRef) (tag : TagArg)
    (rid j : Nat) (v : α)
    (hwf : wfRefB w d = true)
    (hR : (R = filterRef w d tag ∧ w1 = w) ∨
          (stackRef w d other = .ok R ∧ w1 = w) ∨
          stackColsRef w d other = .ok (w1, R))
    (hrid : rid ∈ R.dataIds)
    (hset : setRowCell w1 rid j v = .ok w2)
    (hinv : invariantB w d = true) :
    invariantB w2 d = true := by
  obtain ⟨hh, hr⟩ := setRowCell_ok w1 rid j v w2 hset
  have h12 : invariantB w2 d = invariantB w1 d :=
    rowLenEq_invariantB w1 w2 d hh hr
  have h01 : invariantB w1 d = invariantB w d := by
    rcases hR with ⟨_, rfl⟩ | ⟨_, rfl⟩ | hsc
    · rfl
    · rfl
    · unfold stackColsRef at hsc
      cases hres : (toDataset w d).stack_cols (toDataset w other) with
      | error e =>
          rw [hres] at hsc
          exact nomatch hsc
      | ok res =>
          rw [hres] at hsc
          simp only [okBind] at hsc
          have hp := Except.ok.inj hsc
          have hw1 : w1 = ⟨w.rowHeap ++ res.rows,
              w.hdrHeap ++ (match res.headers with
                            | some hs => [hs]
                            | none => [])⟩ :=
            (congrArg Prod.fst hp).symm
          rw [hw1]
          exact invariantB_extend w res.rows _ d hwf
  rw [h12, h01]
  exact hinv

/-- The world of the C2 witness: `c2World` after writing `9` into cell 0 of
the filtered result's (shared) first row. -/
def c2WorldCellSet : World PV :=
  ⟨[⟨[PV.i 9, PV.i 2], ["t"]⟩, ⟨[PV.i 3, PV.i 4], []⟩], [[PV.s "a", PV.s "b"]]⟩

/-- C2 amended witness: writing a cell of the filter result's shared row
leaves the source dataset's invariants intact. -/
theorem c2_amended_cell_set_keeps_invariants_witness :
    invariantB c2WorldCellSet c2D = true :=
  c2_amended_cell_set_keeps_invariants c2World c2World c2WorldCellSet
    c2D c2D (filterRef c2World c2D (.one "t")) (.one "t") 0 0 (PV.i 9)
    (by decide) (Or.inl ⟨rfl, rfl⟩) (by decide) rfl (by decide)

/-- The first component of an enumeration entry is below the end index. -/
theorem enumFrom_fst_lt (p : Nat × α) (n : Nat) (l : List α)
    (h : p ∈ List.enumFrom n l) : p.1 < n + l.length := by
  obtain ⟨i, x⟩ := p
  exact (List.mem_enumFrom h).2.1

/-- The second component of an enumeration entry is a member of the list. -/
theorem enumFrom_snd_mem (p : Nat × α) (n : Nat) (l : List α)
    (h : p ∈ List.enumFrom n l) : p.2 ∈ l := by
  obtain ⟨i, x⟩ := p
  obtain ⟨-, hlt, hx⟩ := List.mem_enumFrom h
  rw [hx]
  exact List.getElem_mem _

/-- Inserting at index `len(l)` appends. -/
theorem pyListInsert_at_length (l : List β) (x : β) :
    pyListInsert l (l.length : Int) x = l ++ [x] := by
  unfold pyListInsert
  have h1 : ¬ ((l.length : Int) < 0) := by
    simp
  rw [if_neg h1]
  simp [Int.toNat_natCast]

/-- `Dataset.append` of a non-empty row of the right length onto a dataset of
non-zero width succeeds and puts the row at the end. -/
theorem append_ok (acc : Dataset α) (row : List α) (tags : List String)
    (hne : row ≠ []) (hlen : row.length = acc.width) (hw : acc.width ≠ 0) :
    acc.append row tags = .ok { acc with rows := acc.rows ++ [⟨row, tags⟩] } := by
  unfold Dataset.append Dataset.rpush Dataset.insert
  have hb : validShape acc (some row) none = true := by
    obtain ⟨c, cs, rfl⟩ := List.exists_cons_of_ne_nil hne
    simp [validShape, hw, hlen]
  have hv : acc._validate (some row) none false = .ok true := by
    simp [Dataset._validate, hb]
  rw [hv, okBind]
  have hins : pyListInsert acc.rows ((acc.height : Nat) : Int) ⟨row, tags⟩ =
      acc.rows ++ [⟨row, tags⟩] := pyListInsert_at_length acc.rows _
  rw [hins]

/-- What the transpose loop computes: every enumerated header different from
the hinge `h0` contributes the row `[column] + get_col(index)`, in order,
appended after the accumulator's rows. -/
theorem transposeLoop_eq [DecidableEq α] [Inhabited α] (d : Dataset α)
    (h0 : α) (m : Nat) (hm : d.rows.length = m) :
    (ps : List (Nat × α)) → (acc : Dataset α) →
    (∀ p ∈ ps, ∀ r ∈ d.rows, p.1 < r.cells.length) →
    acc.width = m + 1 →
    (∀ r ∈ acc.rows, r.cells.length = m + 1) →
    transposeLoop d h0 ps acc =
      .ok { acc with
            rows := acc.rows ++
              (ps.filter (fun p => decide (p.2 ≠ h0))).map
                (fun p =>
                  ⟨p.2 :: d.rows.map (fun r => r.cells.getD p.1 default),
                   []⟩) }
  | [], acc => fun _ _ _ => by
      simp [transposeLoop]
  | (i, c) :: rest, acc => fun hidx hw hrows => by
      rw [show transposeLoop d h0 ((i, c) :: rest) acc =
          (if c = h0 then transposeLoop d h0 rest acc
           else do
             let colv ← d.get_col i
             let acc2 ← acc.append (c :: colv) []
             transposeLoop d h0 rest acc2) from rfl]
      by_cases hc : c = h0
      · rw [if_pos hc]
        rw [transposeLoop_eq d h0 m hm rest acc
          (fun p hp => hidx p (List.mem_cons_of_mem _ hp)) hw hrows]
        have : ((i, c) :: rest).filter (fun p => decide (p.2 ≠ h0)) =
            rest.filter (fun p => decide (p.2 ≠ h0)) := by
          simp [List.filter_cons, hc]
        rw [this]
      · rw [if_neg hc]
        have hcol : d.get_col i =
            .ok (d.rows.map (fun r => r.cells.getD i default)) := by
          unfold Dataset.get_col
          rw [if_pos]
          apply List.all_eq_true.mpr
          intro r hr
          simpa using hidx (i, c) (List.mem_cons_self _ _) r hr
        rw [hcol, okBind]
        have hlenc : (c :: d.rows.map (fun r => r.cells.getD i default)).length
            = acc.width := by
          simp [hw, hm]
        have happ : acc.append
            (c :: d.rows.map (fun r => r.cells.getD i default)) [] =
            .ok { acc with rows := acc.rows ++
              [⟨c :: d.rows.map (fun r => r.cells.getD i default), []⟩] } :=
          append_ok acc _ [] (by simp) hlenc (by omega)
        rw [happ, okBind]
        have hw2 : ({ acc with rows := acc.rows ++
            [⟨c :: d.rows.map (fun r => r.cells.getD i default), []⟩] }
            : Dataset α).width = m + 1 := by
          cases hacc : acc.rows with
          | nil =>
              simp only [Dataset.width, hacc, List.nil_append]
              simp [hm]
          | cons r0 rest0 =>
              have : acc.width = r0.cells.length := by
                simp [Dataset.width, hacc]
              simp only [Dataset.width, hacc, List.cons_append]
              omega
        have hrows2 : ∀ r ∈ ({ acc with rows := acc.rows ++
            [⟨c :: d.rows.map (fun r => r.cells.getD i default), []⟩] }
            : Dataset α).rows, r.cells.length = m + 1 := by
          intro r hr
          rcases List.mem_append.mp hr with hr | hr
          · exact hrows r hr
          · rcases List.mem_singleton.mp hr with rfl
            simp [hm]
        rw [transposeLoop_eq d h0 m hm rest _
          (fun p hp => hidx p (List.mem_cons_of_mem _ hp)) hw2 hrows2]
        have hfil : ((i, c) :: rest).filter (fun p => decide (p.2 ≠ h0)) =
            (i, c) :: rest.filter (fun p => decide (p.2 ≠ h0)) := by
          simp [List.filter_cons, hc]
        rw [hfil]
        simp

/-- A non-empty rectangular dataset with no headers (claim C5 counterexample
instance 1). -/
def c5NoHeaders : Dataset PV := ⟨[⟨[PV.i 1, PV.i 2], []⟩], none, []⟩

/-- A non-empty rectangular width-1 dataset (instance 2). -/
def c5Width1 : Dataset PV := ⟨[⟨[PV.i 5], []⟩], some [PV.s "a"], []⟩

/-- A non-empty rectangular dataset whose second header duplicates the first
(instance 3). -/
def c5DupHeader : Dataset PV :=
  ⟨[⟨[PV.i 1, PV.i 2], []⟩], some [PV.s "a", PV.s "a"], []⟩

/-- A non-empty rectangular dataset whose first cell equals the first header
(instance 4). -/
def c5CellEqHeader : Dataset PV :=
  ⟨[⟨[PV.s "a", PV.i 2], []⟩], some [PV.s "a", PV.s "b"], []⟩

/-- C5 (corrected), counterexample: the claim quantifies over *every*
non-empty rectangular dataset, but (1) without headers `transpose` dies with
the `TypeError` from `self.headers[0]`; (2) with a single column the loop
skips the lone header, the intermediate result has no rows, and the second
`transpose` returns `None`; (3) a duplicate of the first header is skipped
the same way, with the same `None` outcome; (4) a first-column cell equal to
the first header makes the second pass skip that column, so the double
transpose has height 0 instead of 1.  In none of these cases is
`transpose(transpose(D))` shape-equivalent to `D`. -/
theorem c5_counterexample :
    c5NoHeaders.transpose = .error .typeError ∧
    (c5Width1.transpose = .ok (some ⟨[], some [PV.s "a", PV.i 5], []⟩) ∧
      (⟨[], some [PV.s "a", PV.i 5], []⟩ : Dataset PV).transpose = .ok none) ∧
    (c5DupHeader.transpose = .ok (some ⟨[], some [PV.s "a", PV.i 1], []⟩) ∧
      (⟨[], some [PV.s "a", PV.i 1], []⟩ : Dataset PV).transpose = .ok none) ∧
    (c5CellEqHeader.transpose =
        .ok (some ⟨[⟨[PV.s "b", PV.i 2], []⟩], some [PV.s "a", PV.s "a"], []⟩) ∧
      (⟨[⟨[PV.s "b", PV.i 2], []⟩], some [PV.s "a", PV.s "a"], []⟩
        : Dataset PV).transpose = .ok (some ⟨[], some [PV.s "a", PV.s "b"], []⟩) ∧
      (⟨[], some [PV.s "a", PV.s "b"], []⟩ : Dataset PV).height ≠
        c5CellEqHeader.height) :=
  ⟨rfl, ⟨rfl, rfl⟩, ⟨rfl, rfl⟩, rfl, rfl, by decide⟩

/-- What `transpose` computes on a clean dataset: with headers
`h0 :: hrest`, at least one row, rectangular rows of width
`len(hrest) + 1`, and no later header equal to the hinge `h0`, the result
has header row `h0` followed by the first column, and one row
`[header] + column` per remaining header. -/
theorem transpose_eq_of_clean [DecidableEq α] [Inhabited α] (d : Dataset α)
    (h0 : α) (hrest : List α)
    (hhdr : d.headers = some (h0 :: hrest))
    (hne : d.rows ≠ [])
    (hrect : ∀ r ∈ d.rows, r.cells.length = hrest.length + 1)
    (hdup : ∀ h ∈ hrest, h ≠ h0) :
    d.transpose = .ok (some
      ⟨(List.enumFrom 1 hrest).map
          (fun p =>
            ⟨p.2 :: d.rows.map (fun r => r.cells.getD p.1 default), []⟩),
       some (h0 :: d.rows.map (fun r => r.cells.getD 0 default)), []⟩) := by
  have hh : ¬ d.height = 0 := by
    intro h
    exact hne (List.length_eq_zero.mp h)
  set col0 := d.rows.map (fun r => r.cells.getD 0 default) with hcol0def
  have hcol0len : col0.length = d.rows.length := by simp [hcol0def]
  have hmem : h0 ∈ h0 :: hrest := List.mem_cons_self _ _
  have hall0 : d.rows.all (fun r => decide (0 < r.cells.length)) = true := by
    apply List.all_eq_true.mpr
    intro r hr
    simp [hrect r hr]
  have hcol0 : d.getColByKey h0 = .ok col0 := by
    simp only [Dataset.getColByKey, hhdr, List.indexOf_cons_self]
    rw [if_pos hmem, if_pos hall0]
  have hstart : (Dataset.mk ([] : List (Row α)) none
      [])._set_headers (some (h0 :: col0)) = .ok ⟨[], some (h0 :: col0), []⟩ := by
    have hv : (Dataset.mk ([] : List (Row α)) none
        [])._validate (some (h0 :: col0)) none false = .ok true := by
      simp [Dataset._validate, validShape, Dataset.width]
    unfold Dataset._set_headers
    rw [hv, okBind]
  have hidxA : ∀ p ∈ List.enumFrom 0 (h0 :: hrest), ∀ r ∈ d.rows,
      p.1 < r.cells.length := by
    intro p hp r hr
    have h1 := enumFrom_fst_lt p 0 _ hp
    rw [hrect r hr]
    simpa using h1
  have hwA : (⟨[], some (h0 :: col0), []⟩ : Dataset α).width =
      d.rows.length + 1 := by
    simp [Dataset.width, hcol0len]
  have hloop := transposeLoop_eq d h0 d.rows.length rfl
    (List.enumFrom 0 (h0 :: hrest)) ⟨[], some (h0 :: col0), []⟩ hidxA hwA
    (by simp)
  have hfilA : (List.enumFrom 0 (h0 :: hrest)).filter
      (fun p => decide (p.2 ≠ h0)) = List.enumFrom 1 hrest := by
    rw [List.enumFrom_cons]
    have h1 : ((0, h0) :: List.enumFrom 1 hrest).filter
        (fun p => decide (p.2 ≠ h0)) =
        (List.enumFrom 1 hrest).filter (fun p => decide (p.2 ≠ h0)) := by
      simp [List.filter_cons]
    rw [h1]
    apply List.filter_eq_self.mpr
    intro p hp
    have hmem2 := enumFrom_snd_mem p 1 hrest hp
    simpa using hdup p.2 hmem2
  unfold Dataset.transpose
  rw [if_neg hh]
  simp only [hhdr]
  rw [hcol0, okBind, hstart, okBind, hloop, okBind, hfilA]
  simp

/-- C5 (corrected), amended claim: for every non-empty rectangular dataset
*with headers set, width at least 2, no later header equal to the first
header, and no first-column cell equal to the first header*, the double
transpose is shape-equivalent to the original: same height, same width, the
original headers restored, and the original first column restored. -/
theorem c5_amended_double_transpose_shape [DecidableEq α] [Inhabited α]
    (d : Dataset α) (h0 : α) (hrest : List α)
    (hhdr : d.headers = some (h0 :: hrest))
    (hw2 : hrest ≠ [])
    (hne : d.rows ≠ [])
    (hrect : ∀ r ∈ d.rows, r.cells.length = hrest.length + 1)
    (hdup : h0 ∉ hrest)
    (hcell : ∀ r ∈ d.rows, r.cells.getD 0 default ≠ h0) :
    ∃ t1 t2, d.transpose = .ok (some t1) ∧ t1.transpose = .ok (some t2) ∧
      t2.height = d.height ∧ t2.width = d.width ∧ t2.headers = d.headers ∧
      t2.rows.map (fun r => r.cells.getD 0 default) =
        d.rows.map (fun r => r.cells.getD 0 default) := by
  have hdup1 : ∀ h ∈ hrest, h ≠ h0 := by
    intro h hh hc
    rw [hc] at hh
    exact hdup hh
  have ht1 := transpose_eq_of_clean d h0 hrest hhdr hne hrect hdup1
  set T1rows := (List.enumFrom 1 hrest).map
    (fun p => (⟨p.2 :: d.rows.map (fun r => r.cells.getD p.1 default),
               []⟩ : Row α)) with hT1rowsdef
  set col0 := d.rows.map (fun r => r.cells.getD 0 default) with hcol0def
  have hT1len : T1rows.length = hrest.length := by
    simp [hT1rowsdef]
  have hT1ne : T1rows ≠ [] := by
    intro hc
    rw [hc] at hT1len
    exact hw2 (List.length_eq_zero.mp hT1len.symm)
  have hT1rect : ∀ r ∈ T1rows, r.cells.length = col0.length + 1 := by
    intro r hr
    rw [hT1rowsdef] at hr
    obtain ⟨p, hp, rfl⟩ := List.mem_map.mp hr
    simp [hcol0def]
  have hcol0ne : ∀ v ∈ col0, v ≠ h0 := by
    intro v hv
    rw [hcol0def] at hv
    obtain ⟨r, hr, rfl⟩ := List.mem_map.mp hv
    exact hcell r hr
  have ht2 := transpose_eq_of_clean ⟨T1rows, some (h0 :: col0), []⟩ h0 col0
    rfl hT1ne hT1rect hcol0ne
  have hmapsnd : T1rows.map (fun r => r.cells.getD 0 default) = hrest := by
    rw [hT1rowsdef, List.map_map]
    have hcomp : ((fun r : Row α => r.cells.getD 0 default) ∘
        (fun p : Nat × α =>
          (⟨p.2 :: d.rows.map (fun r => r.cells.getD p.1 default),
            []⟩ : Row α))) = Prod.snd := by
      funext p
      simp
    rw [hcomp, List.enumFrom_map_snd]
  refine ⟨⟨T1rows, some (h0 :: col0), []⟩, _, ht1, ht2, ?_, ?_, ?_, ?_⟩
  · simp [Dataset.height, hcol0def]
  · obtain ⟨r0, rest0, hrows0⟩ := List.exists_cons_of_ne_nil hne
    have hw0 : d.width = hrest.length + 1 := by
      have := hrect r0 (by rw [hrows0]; exact List.mem_cons_self _ _)
      simp [Dataset.width, hrows0, this]
    have hcol0cons : col0 = (r0.cells.getD 0 default) ::
        rest0.map (fun r => r.cells.getD 0 default) := by
      rw [hcol0def, hrows0]
      simp
    dsimp only
    rw [hcol0cons, List.enumFrom_cons]
    simp only [List.map_cons]
    rw [hw0]
    simp only [Dataset.width]
    simp [hT1len]
  · dsimp only
    rw [hmapsnd, hhdr]
  · dsimp only
    rw [List.map_map]
    have hcomp2 : ((fun r : Row α => r.cells.getD 0 default) ∘
        (fun p : Nat × α =>
          (⟨p.2 :: T1rows.map (fun r => r.cells.getD p.1 default),
            []⟩ : Row α))) = Prod.snd := by
      funext p
      simp
    rw [hcomp2, List.enumFrom_map_snd]

/-- A clean dataset for the C5 witness: headers `["a","b","c"]`, two rows,
no duplicate headers, no first-column cell equal to `"a"`. -/
def c5Good : Dataset PV :=
  ⟨[⟨[PV.s "p", PV.i 2, PV.i 3], []⟩, ⟨[PV.s "q", PV.i 5, PV.i 6], []⟩],
   some [PV.s "a", PV.s "b", PV.s "c"], []⟩

/-- C5 amended witness: on the clean dataset the double transpose restores
height, width, headers and the first column. -/
theorem c5_amended_double_transpose_shape_witness :
    ∃ t1 t2, c5Good.transpose = .ok (some t1) ∧
      t1.transpose = .ok (some t2) ∧
      t2.height = c5Good.height ∧ t2.width = c5Good.width ∧
      t2.headers = c5Good.headers ∧
      t2.rows.map (fun r => r.cells.getD 0 default) =
        c5Good.rows.map (fun r => r.cells.getD 0 default) :=
  c5_amended_double_transpose_shape c5Good (PV.s "a") [PV.s "b", PV.s "c"]
    rfl (by decide) (by decide) (by decide) (by decide) (by decide)
